import Mathlib

/-!
Verification of the StratEko streaming-proxy server (Express + OpenAI).

The repository holds several iterations of the same server:
* `src/unnamed/part_001` — the current server: `/api/create`, `/api/status/:jobId`,
  `runStreamingJob` (Responses API with chunked-delivery fallback), the 15-minute
  expiry reaper and `normalizeTrends`;
* `src/unnamed/part_002` — the Chat-Completions variant, whose job store,
  handlers and reaper are identical to part_001;
* `src/index.js` — two earlier drafts (`runOpenAIJob`) including the raw-line
  decoder `extractDeltaFromChunk`.

JavaScript strings are modelled as Lean `String` with `.data` (a `List Char`)
for `length`/`substring`; the `jobs` Map is an association list with the
Map's get/set/delete semantics; timestamps are `Nat`; fallible JS statements
(property access on `undefined`) are modelled with `Except`.
-/

namespace StratEko

/-- Job lifecycle status, part_001 lines 74, 152, 254, 268. -/
inductive Status where
  | queued
  | in_progress
  | completed
  | failed
deriving DecidableEq

/-- A job record of the current server (part_001 lines 73-79): status, the
accumulated text buffer, the error message (null until failure), `createdAt`
for the reaper, and `tokensUsed`. -/
structure Job where
  status : Status
  text : String
  error : Option String
  createdAt : Nat
  tokensUsed : Nat
deriving DecidableEq

/-- The in-memory job store `const jobs = new Map()` (part_001 line 23),
modelled as an association list in insertion order. -/
abbrev Store := List (String × Job)

/-- `jobs.get(id)`: the record at `id`, if any. -/
def jget : Store → String → Option Job
  | [], _ => none
  | (k, j) :: rest, id => if k = id then some j else jget rest id

/-- `jobs.set(id, j)`: replace the record at `id`, or append a new entry
(JS Maps keep insertion order and append unseen keys at the end). -/
def jset : Store → String → Job → Store
  | [], id, j => [(id, j)]
  | (k, j') :: rest, id, j => if k = id then (id, j) :: rest else (k, j') :: jset rest id j

/-- `jobs.delete(id)`: remove the record at `id`. -/
def jdelete (s : Store) (id : String) : Store :=
  s.filter (fun p => p.1 != id)

@[simp] theorem jget_jset_self (s : Store) (id : String) (j : Job) :
    jget (jset s id j) id = some j := by
  induction s with
  | nil => simp [jset, jget]
  | cons p rest ih =>
    by_cases h : p.1 = id
    · simp [jset, jget, h]
    · simpa [jset, jget, h] using ih

@[simp] theorem jget_jdelete_self (s : Store) (id : String) :
    jget (jdelete s id) id = none := by
  induction s with
  | nil => simp [jdelete, jget]
  | cons p rest ih =>
    by_cases h : p.1 = id
    · simpa [jdelete, jget, h] using ih
    · simpa [jdelete, jget, h] using ih

/-- The record created by the `/api/create` handler (part_001 lines 73-79). -/
def initialJob (now : Nat) : Job :=
  { status := Status.queued, text := "", error := none, createdAt := now, tokensUsed := 0 }

/-!
The four store-write sites of `runStreamingJob` (part_001).
-/

/-- Lines 150-153: the `in_progress` transition. The read-modify-write is not
guarded: `jobs.get(jobId)` followed by `job.status = "in_progress"` throws a
`TypeError` when the record is absent, so the absent case is an `Except.error`. -/
def markInProgress (s : Store) (id : String) : Except String Store :=
  match jget s id with
  | none => Except.error "TypeError: Cannot set properties of undefined"
  | some job => Except.ok (jset s id { job with status := Status.in_progress })

/-- Lines 185-189 (per-delta update), 245-248 (post-loop text sync) and
295-298 (chunk snapshot in `simulateChunkedDelivery`): a guarded write of the
text buffer — `const job = jobs.get(jobId); if (job) { job.text = t; jobs.set(...) }`. -/
def jupdateText (s : Store) (id : String) (t : String) : Store :=
  match jget s id with
  | none => s
  | some job => jset s id { job with text := t }

/-- Lines 252-258: the guarded completion write — status `completed`, the final
text, and the token count. -/
def completionWrite (s : Store) (id : String) (t : String) (tok : Nat) : Store :=
  match jget s id with
  | none => s
  | some job => jset s id { job with status := Status.completed, text := t, tokensUsed := tok }

/-- Lines 266-271: the guarded failure write — status `failed` and
`error = err.message || "Stream failed"`. The text buffer is not touched. -/
def failureWrite (s : Store) (id : String) (msg : String) : Store :=
  match jget s id with
  | none => s
  | some job =>
    jset s id { job with status := Status.failed,
                         error := some (if msg = "" then "Stream failed" else msg) }

/-!
The legacy drafts in `src/index.js` keep a smaller record
`{ status, text, error }` (line 19) in their own `jobs` Map.
-/

/-- A job record of the legacy drafts in `src/index.js` (line 19). -/
structure LegacyJob where
  status : Status
  text : String
  error : Option String
deriving DecidableEq

/-- The legacy in-memory job store (`src/index.js` line 12). -/
abbrev LStore := List (String × LegacyJob)

/-- `jobs.get(id)` on the legacy store. -/
def ljget : LStore → String → Option LegacyJob
  | [], _ => none
  | (k, j) :: rest, id => if k = id then some j else ljget rest id

/-- `jobs.set(id, j)` on the legacy store. -/
def ljset : LStore → String → LegacyJob → LStore
  | [], id, j => [(id, j)]
  | (k, j') :: rest, id, j => if k = id then (id, j) :: rest else (k, j') :: ljset rest id j

@[simp] theorem ljget_ljset_self (s : LStore) (id : String) (j : LegacyJob) :
    ljget (ljset s id j) id = some j := by
  induction s with
  | nil => simp [ljset, ljget]
  | cons p rest ih =>
    by_cases h : p.1 = id
    · simp [ljset, ljget, h]
    · simpa [ljset, ljget, h] using ih

/-- The catch handler of `runOpenAIJob` in `src/index.js` lines 60-63:
`jobs.set(jobId, { status: "failed", text: "", error: err.message })` — an
unconditional full-record replace. -/
def legacyFailureWrite (s : LStore) (id : String) (msg : String) : LStore :=
  ljset s id { status := Status.failed, text := "", error := some msg }

/-- C1. The claim says a failure must leave the partial text in place. The
`runStreamingJob` failure handler (part_001 lines 262-272) does preserve it —
see `failureWrite` — but the `runOpenAIJob` catch in `src/index.js` lines 60-63
replaces the whole record with `text: ""`. Evaluated here at a concrete job
that had accumulated partial text when the stream failed: afterwards the
status is `failed` and the error is set, but the text is the empty string,
not the partial text. This contradicts the spec's stated contract, which the
spec itself says some source variants regressed. -/
theorem c1_legacy_failure_discards_partial_text :
    ljget
      (legacyFailureWrite
        (ljset [] "job-1"
          { status := Status.in_progress, text := "A) Baseline: partial analysis", error := none })
        "job-1" "OpenAI API error (500)")
      "job-1" =
    some { status := Status.failed, text := "", error := some "OpenAI API error (500)" } := by
  rfl

/-- Supporting fact for C1: the current failure handler (part_001 lines
262-272) preserves whatever text had accumulated — it only sets `status`
and `error`. -/
theorem failureWrite_preserves_text (s : Store) (id : String) (msg : String) (j : Job)
    (h : jget s id = some j) :
    jget (failureWrite s id msg) id =
      some { j with status := Status.failed,
                    error := some (if msg = "" then "Stream failed" else msg) } := by
  simp [failureWrite, h]

/-- C2. Once a job id has been deleted from the store, every store write the
lifecycle task performs after that point is a no-op: the per-delta text
updates, the chunk-snapshot writes and the post-loop sync (all
`jupdateText`), the completion write and the failure write each leave the
store exactly as it was — nothing throws and nothing is re-inserted, because
each site re-reads the record and skips the write when it is gone (part_001
lines 185-189, 245-248, 252-258, 266-271, 295-298). The one unguarded write,
the `in_progress` transition (lines 150-153), runs synchronously with record
creation — no await separates the `jobs.set` of the create handler from it,
so the reaper cannot delete the record first — and on the freshly created
record it succeeds. -/
theorem c2_deleted_job_writes_noop (s : Store) (id : String) (t msg : String) (tok : Nat)
    (j0 : Job) (h : jget s id = none) :
    jupdateText s id t = s ∧
    completionWrite s id t tok = s ∧
    failureWrite s id msg = s ∧
    markInProgress (jset s id j0) id =
      Except.ok (jset (jset s id j0) id { j0 with status := Status.in_progress }) := by
  refine ⟨?_, ?_, ?_, ?_⟩
  · simp [jupdateText, h]
  · simp [completionWrite, h]
  · simp [failureWrite, h]
  · simp [markInProgress]

/-- Witness for C2 at a concrete deleted id. -/
theorem c2_deleted_job_writes_noop_witness :
    jget [] "job-1" = none ∧
    (jupdateText [] "job-1" "abc" = [] ∧
     completionWrite [] "job-1" "abc" 7 = [] ∧
     failureWrite [] "job-1" "boom" = [] ∧
     markInProgress (jset [] "job-1" (initialJob 5)) "job-1" =
       Except.ok (jset (jset [] "job-1" (initialJob 5)) "job-1"
         { initialJob 5 with status := Status.in_progress })) :=
  ⟨rfl, c2_deleted_job_writes_noop [] "job-1" "abc" "boom" 7 (initialJob 5) rfl⟩

/-!
The trend normalizer (part_001 lines 372-382; part_002 lines 280-290 is
identical; the `src/index.js` variant lines 344-352 differs only in writing
the clamps with `Math.min`/`Math.max`).

JS values reaching `Number(v)` are modelled by `JsVal`; the result of
`Number(v)` by `JsNum` (a finite rational, `NaN`, or an infinity — IEEE
rounding of decimal literals is not modelled, which no theorem below
depends on).
-/

/-- The result of the JS `Number(v)` conversion. -/
inductive JsNum where
  | finite (q : ℚ)
  | nan
  | posInf
  | negInf
deriving DecidableEq

/-- A JS value as it can appear in the `trends` object of a request body. -/
inductive JsVal where
  | num (n : JsNum)
  | str (s : String)
  | boolean (b : Bool)
  | null
  | undefined
deriving DecidableEq

/-- Value of a digit string, most significant first. -/
def digitsVal (cs : List Char) : ℚ :=
  cs.foldl (fun a c => a * 10 + ((c.toNat - 48 : Nat) : ℚ)) 0

/-- Model of `Number(string)`: trimmed empty string is 0; an optional sign,
decimal digits and an optional fractional part are parsed; `Infinity` maps to
the infinities; anything else (including exponent and hex forms, which the
model leaves out) is `NaN`. -/
def jsStrToNumber (s : String) : JsNum :=
  let cs := s.trim.data
  if cs = [] then JsNum.finite 0
  else
    let sign : Bool := cs.head? = some '-'
    let rest := if cs.head? = some '-' ∨ cs.head? = some '+' then cs.tail else cs
    if rest = "Infinity".data then (if sign then JsNum.negInf else JsNum.posInf)
    else
      let ip := rest.takeWhile (fun c => c ≠ '.')
      let dp := rest.dropWhile (fun c => c ≠ '.')
      match dp with
      | [] =>
        if ip ≠ [] ∧ ip.all Char.isDigit then
          JsNum.finite ((if sign then -1 else 1) * digitsVal ip)
        else JsNum.nan
      | _ :: frac =>
        if (ip ≠ [] ∨ frac ≠ []) ∧ ip.all Char.isDigit ∧ frac.all Char.isDigit then
          JsNum.finite ((if sign then -1 else 1) *
            (digitsVal ip + digitsVal frac / ((10 : ℚ) ^ frac.length)))
        else JsNum.nan

/-- Model of the JS `Number(v)` conversion on `JsVal`. -/
def jsToNumber : JsVal → JsNum
  | JsVal.num n => n
  | JsVal.str s => jsStrToNumber s
  | JsVal.boolean true => JsNum.finite 1
  | JsVal.boolean false => JsNum.finite 0
  | JsVal.null => JsNum.finite 0
  | JsVal.undefined => JsNum.nan

/-- One trend value through `normalizeTrends` (part_001 lines 374-379):
`let n = Number(v); if (!Number.isFinite(n)) n = 1; if (n < 1) n = 1;
if (n > 3) n = 3;`. After the non-finite default the two clamps cannot fire,
so the non-finite case is exactly 1. -/
def normalizeTrendValue (v : JsVal) : ℚ :=
  match jsToNumber v with
  | JsNum.finite q => if q < 1 then 1 else if q > 3 then 3 else q
  | _ => 1

/-- `normalizeTrends` (part_001 lines 372-382): every entry of the trends
object is mapped through the clamp; keys are kept. -/
def normalizeTrends (trends : List (String × JsVal)) : List (String × ℚ) :=
  trends.map (fun p => (p.1, normalizeTrendValue p.2))

/-- C6 counterexample. The claim says every output value is an integer in
[1,3]; the code clamps but never rounds, so the finite non-integral input
2.5 is returned unchanged — the output has denominator 2, hence is not an
integer. -/
theorem c6_noninteger_output :
    normalizeTrends [("economicPressure", JsVal.num (JsNum.finite (5 / 2)))] =
      [("economicPressure", (5 / 2 : ℚ))] ∧
    ((5 / 2 : ℚ)).den ≠ 1 := by
  constructor
  · simp only [normalizeTrends, normalizeTrendValue, jsToNumber, List.map]
    norm_num
  · norm_num

/-- C6 as amended: the normalizer is total; a value that does not convert to
a finite number yields 1, a finite value is clamped into [1,3] inclusive, and
every output lies in [1,3] — as a rational, not necessarily an integer. -/
theorem c6_normalize_total_clamped (v : JsVal) :
    1 ≤ normalizeTrendValue v ∧ normalizeTrendValue v ≤ 3 ∧
    ((∀ q : ℚ, jsToNumber v ≠ JsNum.finite q) → normalizeTrendValue v = 1) ∧
    (∀ q : ℚ, jsToNumber v = JsNum.finite q →
      normalizeTrendValue v = max 1 (min 3 q)) ∧
    (∀ trends : List (String × JsVal),
      normalizeTrends trends = trends.map (fun p => (p.1, normalizeTrendValue p.2))) := by
  cases h : jsToNumber v with
  | finite q =>
    have hv : normalizeTrendValue v = if q < 1 then 1 else if q > 3 then 3 else q := by
      simp [normalizeTrendValue, h]
    refine ⟨?_, ?_, ?_, ?_, fun _ => rfl⟩
    · rw [hv]; split_ifs with h1 h2 <;> [norm_num; norm_num; linarith]
    · rw [hv]; split_ifs with h1 h2 <;> [norm_num; norm_num; linarith]
    · intro hnf; exact absurd rfl (hnf q)
    · intro q' hq'
      injection hq' with hqq
      subst hqq
      rw [hv]
      split_ifs with h1 h2
      · rw [min_eq_right (by linarith), max_eq_left (by linarith)]
      · rw [min_eq_left (by linarith), max_eq_right (by norm_num)]
      · rw [min_eq_right (by linarith), max_eq_right (by linarith)]
  | nan =>
    have hv : normalizeTrendValue v = 1 := by simp [normalizeTrendValue, h]
    refine ⟨by rw [hv], by rw [hv]; norm_num, fun _ => hv, ?_, fun _ => rfl⟩
    intro q' hq'
    cases hq'
  | posInf =>
    have hv : normalizeTrendValue v = 1 := by simp [normalizeTrendValue, h]
    refine ⟨by rw [hv], by rw [hv]; norm_num, fun _ => hv, ?_, fun _ => rfl⟩
    intro q' hq'
    cases hq'
  | negInf =>
    have hv : normalizeTrendValue v = 1 := by simp [normalizeTrendValue, h]
    refine ⟨by rw [hv], by rw [hv]; norm_num, fun _ => hv, ?_, fun _ => rfl⟩
    intro q' hq'
    cases hq'

/-- Witness for C6 at concrete inputs. -/
theorem c6_normalize_total_clamped_witness :
    1 ≤ normalizeTrendValue (JsVal.str "not a number") ∧
    normalizeTrendValue (JsVal.str "not a number") ≤ 3 ∧
    ((∀ q : ℚ, jsToNumber (JsVal.str "not a number") ≠ JsNum.finite q) →
      normalizeTrendValue (JsVal.str "not a number") = 1) ∧
    (∀ q : ℚ, jsToNumber (JsVal.str "not a number") = JsNum.finite q →
      normalizeTrendValue (JsVal.str "not a number") = max 1 (min 3 q)) ∧
    (∀ trends : List (String × JsVal),
      normalizeTrends trends = trends.map (fun p => (p.1, normalizeTrendValue p.2))) :=
  c6_normalize_total_clamped (JsVal.str "not a number")

/-!
The expiry reaper (part_001 lines 318-328; part_002 lines 226-236 is
identical): every 2 minutes, delete every job whose age exceeds
`MAX_AGE = 15 * 60 * 1000` milliseconds. Deleting the entry under iteration
of a JS Map is safe and visits every entry, so one sweep is a filter.
-/

/-- One sweep of the cleanup interval (part_001 lines 318-328): for every
entry, `if (now - job.createdAt > MAX_AGE) jobs.delete(jobId)`. The age is
computed in `ℤ` as JS number subtraction would. -/
def reapSweep (now : Nat) (s : Store) : Store :=
  s.filter (fun p =>
    if (now : ℤ) - (p.2.createdAt : ℤ) > 15 * 60 * 1000 then false else true)

theorem jget_eq_none_of_not_mem_keys (s : Store) (id : String)
    (h : id ∉ s.map Prod.fst) : jget s id = none := by
  induction s with
  | nil => rfl
  | cons p rest ih =>
    simp only [List.map, List.mem_cons, not_or] at h
    simp only [jget]
    rw [if_neg (fun hk => h.1 hk.symm)]
    exact ih h.2

theorem jget_filter_none (s : Store) (id : String) (f : String × Job → Bool)
    (h : jget s id = none) : jget (s.filter f) id = none := by
  induction s with
  | nil => rfl
  | cons p rest ih =>
    simp only [jget] at h
    by_cases hk : p.1 = id
    · simp [hk] at h
    · have h' : jget rest id = none := by simpa [hk] using h
      by_cases hf : f p
      · simpa [List.filter, hf, jget, hk] using ih h'
      · simpa [List.filter, hf] using ih h'

/-- C7. A single reaper sweep at time `now` deletes exactly the records whose
age `now - createdAt` strictly exceeds the 15-minute TTL — regardless of
status, which the sweep never inspects — and returns every younger record
unchanged. -/
theorem c7_reaper_sweep (now : Nat) (s : Store) (id : String)
    (h : (s.map Prod.fst).Nodup) :
    jget (reapSweep now s) id =
      match jget s id with
      | none => none
      | some j => if (now : ℤ) - (j.createdAt : ℤ) > 15 * 60 * 1000 then none else some j := by
  induction s with
  | nil => rfl
  | cons p rest ih =>
    simp only [List.map, List.nodup_cons] at h
    by_cases hage : (now : ℤ) - (p.2.createdAt : ℤ) > 15 * 60 * 1000
    · have hdrop : reapSweep now (p :: rest) = reapSweep now rest := by
        simp [reapSweep, List.filter_cons, hage]
        omega
      by_cases hk : p.1 = id
      · subst hk
        have hrest : jget rest p.1 = none :=
          jget_eq_none_of_not_mem_keys rest p.1 h.1
        have hnone : jget (reapSweep now rest) p.1 = none :=
          jget_filter_none rest p.1 _ hrest
        have hj : jget (p :: rest) p.1 = some p.2 := by simp [jget]
        rw [hdrop, hnone, hj]
        exact (if_pos hage).symm
      · have hj : jget (p :: rest) id = jget rest id := by simp [jget, hk]
        rw [hdrop, hj]
        exact ih h.2
    · have hkeep : reapSweep now (p :: rest) = p :: reapSweep now rest := by
        simp [reapSweep, List.filter_cons, hage]
        omega
      by_cases hk : p.1 = id
      · subst hk
        have hj : jget (p :: rest) p.1 = some p.2 := by simp [jget]
        have hj2 : jget (p :: reapSweep now rest) p.1 = some p.2 := by simp [jget]
        rw [hkeep, hj, hj2]
        exact (if_neg hage).symm
      · have hj : jget (p :: rest) id = jget rest id := by simp [jget, hk]
        have hj2 : jget (p :: reapSweep now rest) id = jget (reapSweep now rest) id := by
          simp [jget, hk]
        rw [hkeep, hj2, hj]
        exact ih h.2

/-- Witness for C7: a store holding one job over the TTL and one under it;
the sweep at `now = 1000001` removes the old one (age 1000001 ms) by the
theorem, and the young one (age 1 ms) survives unchanged. -/
theorem c7_reaper_sweep_witness :
    (([("old", initialJob 0), ("young", initialJob 1000000)] : Store).map Prod.fst).Nodup ∧
    (jget (reapSweep 1000001 [("old", initialJob 0), ("young", initialJob 1000000)]) "old" =
      match jget [("old", initialJob 0), ("young", initialJob 1000000)] "old" with
      | none => none
      | some j =>
        if (1000001 : ℤ) - (j.createdAt : ℤ) > 15 * 60 * 1000 then none else some j) :=
  ⟨by decide, c7_reaper_sweep 1000001 _ "old" (by decide)⟩

/-!
The raw-line chunk decoder `extractDeltaFromChunk` (src/index.js lines
257-277), applied by the second `runOpenAIJob` draft to each `data:` line
after `JSON.parse` (lines 219-233). Parsed JSON is modelled by `JsonVal`
(JSON.parse can produce null, booleans, numbers, strings, arrays and
objects; object keys are looked up first-match, as JSON.parse keeps one
entry per key).
-/

/-- A parsed-JSON value. -/
inductive JsonVal where
  | jnull
  | jbool (b : Bool)
  | jnum (q : ℚ)
  | jstr (s : String)
  | jarr (elems : List JsonVal)
  | jobj (fields : List (String × JsonVal))

/-- JS truthiness of a parsed-JSON value (`NaN` cannot come out of
JSON.parse, so a number is falsy exactly when it is 0). -/
def truthy : JsonVal → Bool
  | JsonVal.jnull => false
  | JsonVal.jbool b => b
  | JsonVal.jnum q => !(q == 0)
  | JsonVal.jstr s => !(s == "")
  | JsonVal.jarr _ => true
  | JsonVal.jobj _ => true

/-- Property access `v.k`: a field of an object, `undefined` (none)
otherwise. -/
def getProp : JsonVal → String → Option JsonVal
  | JsonVal.jobj fields, k => fields.lookup k
  | _, _ => none

/-- Optional-chaining access `v?.k` on a possibly-undefined value. -/
def optGetProp : Option JsonVal → String → Option JsonVal
  | none, _ => none
  | some v, k => getProp v k

/-- Truthiness of a possibly-undefined value (`undefined` is falsy). -/
def truthyOpt : Option JsonVal → Bool
  | none => false
  | some v => truthy v

/-- The test `o === "ty"` on a possibly-undefined field value: true exactly
for the string `ty`. -/
def typeIs (o : Option JsonVal) (ty : String) : Bool :=
  match o with
  | some (JsonVal.jstr s) => s == ty
  | _ => false

/-- Model of the JS string coercion applied by `text += block.text` when the
field is truthy but not a string (arrays join their elements with commas;
a number is printed in Lean's rational notation, a model detail nothing
below depends on). -/
def jsonToString : JsonVal → String
  | JsonVal.jnull => "null"
  | JsonVal.jbool b => if b then "true" else "false"
  | JsonVal.jnum q => toString q
  | JsonVal.jstr s => s
  | JsonVal.jarr l => String.intercalate "," (l.attach.map (fun x => jsonToString x.1))
  | JsonVal.jobj _ => "[object Object]"
decreasing_by
  have := List.sizeOf_lt_of_mem x.2
  simp only [JsonVal.jarr.sizeOf_spec]
  omega

/-- Lines 269-272, one iteration of the content loop: the two independent
`if (block?.type === "..." && block.text) text += block.text` statements. -/
def accBlock (acc : String) (b : JsonVal) : String :=
  let acc1 :=
    if typeIs (getProp b "type") "output_text" && truthyOpt (getProp b "text") then
      acc ++ jsonToString ((getProp b "text").getD JsonVal.jnull)
    else acc
  if typeIs (getProp b "type") "text" && truthyOpt (getProp b "text") then
    acc1 ++ jsonToString ((getProp b "text").getD JsonVal.jnull)
  else acc1

/-- Line 261's condition: `json?.delta?.type === "output_text" && json.delta.text`. -/
def deltaShapeB (json : JsonVal) : Bool :=
  typeIs (optGetProp (getProp json "delta") "type") "output_text" &&
    truthyOpt (optGetProp (getProp json "delta") "text")

/-- Line 264's condition: `json?.output_text` is truthy. -/
def outputTextShapeB (json : JsonVal) : Bool :=
  truthyOpt (getProp json "output_text")

/-- A content block that contributes text in lines 269-272. -/
def blockMatchesB (b : JsonVal) : Bool :=
  (typeIs (getProp b "type") "output_text" || typeIs (getProp b "type") "text") &&
    truthyOpt (getProp b "text")

/-- `extractDeltaFromChunk` (src/index.js lines 257-277): falsy input yields
the empty string; a matching `delta` shape returns `json.delta.text` as-is; a
truthy top-level `output_text` is returned as-is; a `content` array is folded
through the block loop; anything else yields the empty string. -/
def extractDeltaFromChunk (json : JsonVal) : JsonVal :=
  if truthy json = false then JsonVal.jstr ""
  else if deltaShapeB json then
    (optGetProp (getProp json "delta") "text").getD JsonVal.jnull
  else if outputTextShapeB json then
    (getProp json "output_text").getD JsonVal.jnull
  else
    match getProp json "content" with
    | some (JsonVal.jarr blocks) => JsonVal.jstr (blocks.foldl accBlock "")
    | _ => JsonVal.jstr ""

/-- Discriminator used to state that a returned value is not a string. -/
def isStr : JsonVal → Bool
  | JsonVal.jstr _ => true
  | _ => false

theorem accBlock_of_no_match (acc : String) (b : JsonVal)
    (h : blockMatchesB b = false) : accBlock acc b = acc := by
  have h' := h
  simp only [blockMatchesB, Bool.and_eq_false_iff, Bool.or_eq_false_iff] at h'
  rcases h' with ⟨h1, h2⟩ | h3
  · simp [accBlock, h1, h2]
  · simp [accBlock, h3]

theorem foldl_accBlock_empty (blocks : List JsonVal) (acc : String)
    (h : ∀ b ∈ blocks, blockMatchesB b = false) : blocks.foldl accBlock acc = acc := by
  induction blocks generalizing acc with
  | nil => rfl
  | cons b rest ih =>
    rw [List.foldl_cons, accBlock_of_no_match acc b (h b (by simp))]
    exact ih acc (fun b' hb' => h b' (by simp [hb']))

/-- C10 counterexample. The claim says the decoder returns a string for every
parsed-JSON input. On `{"output_text": true}` the `json?.output_text` branch
(line 264) returns the raw field value — the boolean `true`, not a string. -/
theorem c10_nonstring_return :
    extractDeltaFromChunk (JsonVal.jobj [("output_text", JsonVal.jbool true)]) =
      JsonVal.jbool true ∧
    isStr (extractDeltaFromChunk (JsonVal.jobj [("output_text", JsonVal.jbool true)])) =
      false := by
  constructor <;> rfl

/-- C10 as amended: the decoder is total (a plain function on parsed JSON)
and, whenever neither the `delta` shape nor a truthy top-level `output_text`
matches, it returns a string — the fold over a `content` array, and the empty
string when additionally no content block matches (or there is no content
array). On the two early-return branches, however, it passes the raw field
value through, which need not be a string (see the counterexample). -/
theorem c10_extract_default_empty (json : JsonVal)
    (h1 : deltaShapeB json = false) (h2 : outputTextShapeB json = false) :
    (∃ s, extractDeltaFromChunk json = JsonVal.jstr s) ∧
    ((∀ blocks, getProp json "content" = some (JsonVal.jarr blocks) →
        ∀ b ∈ blocks, blockMatchesB b = false) →
      extractDeltaFromChunk json = JsonVal.jstr "") := by
  by_cases ht : truthy json = false
  · constructor
    · exact ⟨"", by simp [extractDeltaFromChunk, ht]⟩
    · intro _
      simp [extractDeltaFromChunk, ht]
  · have hx : extractDeltaFromChunk json =
        match getProp json "content" with
        | some (JsonVal.jarr blocks) => JsonVal.jstr (blocks.foldl accBlock "")
        | _ => JsonVal.jstr "" := by
      simp [extractDeltaFromChunk, ht, h1, h2]
    constructor
    · rw [hx]
      match hc : getProp json "content" with
      | some (JsonVal.jarr blocks) => exact ⟨blocks.foldl accBlock "", rfl⟩
      | none => exact ⟨"", rfl⟩
      | some JsonVal.jnull => exact ⟨"", rfl⟩
      | some (JsonVal.jbool b) => exact ⟨"", rfl⟩
      | some (JsonVal.jnum q) => exact ⟨"", rfl⟩
      | some (JsonVal.jstr s) => exact ⟨"", rfl⟩
      | some (JsonVal.jobj fields) => exact ⟨"", rfl⟩
    · intro hnb
      rw [hx]
      match hc : getProp json "content" with
      | some (JsonVal.jarr blocks) =>
        show JsonVal.jstr (blocks.foldl accBlock "") = JsonVal.jstr ""
        rw [foldl_accBlock_empty blocks "" (hnb blocks hc)]
      | none => rfl
      | some JsonVal.jnull => rfl
      | some (JsonVal.jbool b) => rfl
      | some (JsonVal.jnum q) => rfl
      | some (JsonVal.jstr s) => rfl
      | some (JsonVal.jobj fields) => rfl

/-- Witness for C10 at a concrete chunk whose content array holds only a
reasoning block: no shape matches and the decoder returns the empty string. -/
theorem c10_extract_default_empty_witness :
    deltaShapeB (JsonVal.jobj [("content", JsonVal.jarr
      [JsonVal.jobj [("type", JsonVal.jstr "reasoning"), ("text", JsonVal.jstr "hi")]])]) =
      false ∧
    outputTextShapeB (JsonVal.jobj [("content", JsonVal.jarr
      [JsonVal.jobj [("type", JsonVal.jstr "reasoning"), ("text", JsonVal.jstr "hi")]])]) =
      false ∧
    ((∃ s, extractDeltaFromChunk (JsonVal.jobj [("content", JsonVal.jarr
        [JsonVal.jobj [("type", JsonVal.jstr "reasoning"), ("text", JsonVal.jstr "hi")]])]) =
        JsonVal.jstr s) ∧
     ((∀ blocks, getProp (JsonVal.jobj [("content", JsonVal.jarr
          [JsonVal.jobj [("type", JsonVal.jstr "reasoning"), ("text", JsonVal.jstr "hi")]])])
          "content" = some (JsonVal.jarr blocks) →
        ∀ b ∈ blocks, blockMatchesB b = false) →
      extractDeltaFromChunk (JsonVal.jobj [("content", JsonVal.jarr
        [JsonVal.jobj [("type", JsonVal.jstr "reasoning"), ("text", JsonVal.jstr "hi")]])]) =
        JsonVal.jstr "")) :=
  ⟨rfl, rfl, c10_extract_default_empty _ rfl rfl⟩

/-!
The HTTP handlers. `/api/create` and `/api/status/:jobId` are part_001
lines 43-110 and 117-140 (part_002 lines 43-110 and 117-140 are identical);
the legacy drafts in `src/index.js` expose `/create` (lines 14-26) and
`/status/:jobId` (lines 28-32). A missing request field is modelled as the
empty string, which is equally falsy in JS. The prompt-building fields
(latitude, longitude, locationLabel, trends) only feed the opaque prompt
template and are omitted from the request model. Response bodies are
`JsonVal` field lists; the HTTP status code is the first component.
-/

/-- The request fields the create handlers validate. -/
structure CreateReq where
  country : String
  sector : String
  description : String
  analysisFocus : String

/-- A create response: 400 with an error message, or 200 with
`{success: true, jobId, status}`. -/
inductive CreateResp where
  | badRequest (error : String)
  | created (jobId : String) (status : String)
deriving DecidableEq

/-- The `/api/create` handler (part_001 lines 56-101): reject when country,
sector or description is falsy; reject when `analysisFocus` is falsy or not
in the two-element list; otherwise store a fresh `queued` record under the
generated id and answer 200 (the streaming task is then started — see
`runStreamingJob` below). `newId` stands for `crypto.randomUUID()` and `now`
for `Date.now()`. -/
def apiCreate (req : CreateReq) (newId : String) (now : Nat) (s : Store) :
    CreateResp × Store :=
  if req.country = "" ∨ req.sector = "" ∨ req.description = "" then
    (CreateResp.badRequest "Missing required inputs: country, sector, description", s)
  else if req.analysisFocus = "" ∨
      ¬(req.analysisFocus = "project" ∨ req.analysisFocus = "authorizationFramework") then
    (CreateResp.badRequest "analysisFocus must be 'project' or 'authorizationFramework'", s)
  else
    (CreateResp.created newId "queued", jset s newId (initialJob now))

/-- The legacy `/create` handler (src/index.js lines 14-26): it validates
only the three required fields and never looks at `analysisFocus`. -/
def legacyCreate (req : CreateReq) (newId : String) (s : LStore) : CreateResp × LStore :=
  if req.country = "" ∨ req.sector = "" ∨ req.description = "" then
    (CreateResp.badRequest "Missing inputs", s)
  else
    (CreateResp.created newId "queued",
     ljset s newId { status := Status.queued, text := "", error := none })

/-- C8 counterexample. A request whose three required fields are present but
whose `analysisFocus` is the string "banana" is accepted by the legacy
`/create` handler (src/index.js lines 14-26): it answers 200 and inserts a
queued job — the claim demands a 400 and no job. -/
theorem c8_legacy_accepts_invalid_focus :
    (legacyCreate
        { country := "Australia", sector := "Mining",
          description := "Lithium extraction", analysisFocus := "banana" }
        "job-1" []).1 = CreateResp.created "job-1" "queued" ∧
    ljget (legacyCreate
        { country := "Australia", sector := "Mining",
          description := "Lithium extraction", analysisFocus := "banana" }
        "job-1" []).2 "job-1" =
      some { status := Status.queued, text := "", error := none } := by
  constructor
  · rfl
  · rfl

/-- C8 as amended: the `/api/create` handler (part_001 and part_002) rejects
every request with a missing or empty required field, or with an
`analysisFocus` outside the two enumerated values, with a 400 and a
non-empty error message, leaving the store untouched; the legacy `/create`
handler in `src/index.js` does the same for the three required fields but
performs no `analysisFocus` validation. -/
theorem c8_create_validation (req : CreateReq) (newId : String) (now : Nat)
    (s : Store) (ls : LStore)
    (h : req.country = "" ∨ req.sector = "" ∨ req.description = "" ∨
      ¬(req.analysisFocus = "project" ∨ req.analysisFocus = "authorizationFramework")) :
    ((∃ msg, (apiCreate req newId now s).1 = CreateResp.badRequest msg ∧ msg ≠ "") ∧
      (apiCreate req newId now s).2 = s) ∧
    ((req.country = "" ∨ req.sector = "" ∨ req.description = "") →
      (legacyCreate req newId ls).1 = CreateResp.badRequest "Missing inputs" ∧
      (legacyCreate req newId ls).2 = ls) := by
  constructor
  · by_cases hc : req.country = "" ∨ req.sector = "" ∨ req.description = ""
    · have happ : apiCreate req newId now s =
          (CreateResp.badRequest "Missing required inputs: country, sector, description", s) := by
        simp only [apiCreate]
        rw [if_pos hc]
      rw [happ]
      exact ⟨⟨_, rfl, by decide⟩, rfl⟩
    · have hf : ¬(req.analysisFocus = "project" ∨ req.analysisFocus = "authorizationFramework") := by
        rcases h with h | h | h | h
        · exact absurd (Or.inl h) hc
        · exact absurd (Or.inr (Or.inl h)) hc
        · exact absurd (Or.inr (Or.inr h)) hc
        · exact h
      have happ : apiCreate req newId now s =
          (CreateResp.badRequest "analysisFocus must be 'project' or 'authorizationFramework'", s) := by
        simp only [apiCreate]
        rw [if_neg hc, if_pos (Or.inr hf)]
      rw [happ]
      exact ⟨⟨_, rfl, by decide⟩, rfl⟩
  · intro hc
    have happ : legacyCreate req newId ls = (CreateResp.badRequest "Missing inputs", ls) := by
      simp only [legacyCreate]
      rw [if_pos hc]
    rw [happ]
    exact ⟨rfl, rfl⟩

/-- The request used by the C8 witness: empty description, invalid focus. -/
def wReq : CreateReq :=
  { country := "Austria", sector := "Steel", description := "", analysisFocus := "banana" }

/-- Witness for C8: a request with an empty description and an invalid
focus is rejected by both handlers and neither store changes. -/
theorem c8_create_validation_witness :
    (wReq.country = "" ∨ wReq.sector = "" ∨ wReq.description = "" ∨
      ¬(wReq.analysisFocus = "project" ∨ wReq.analysisFocus = "authorizationFramework")) ∧
    (((∃ msg, (apiCreate wReq "job-2" 7 []).1 = CreateResp.badRequest msg ∧ msg ≠ "") ∧
        (apiCreate wReq "job-2" 7 []).2 = []) ∧
      ((wReq.country = "" ∨ wReq.sector = "" ∨ wReq.description = "") →
        (legacyCreate wReq "job-2" []).1 = CreateResp.badRequest "Missing inputs" ∧
        (legacyCreate wReq "job-2" []).2 = [])) :=
  ⟨by decide, c8_create_validation wReq "job-2" 7 [] [] (by decide)⟩

/-- Wire names of the four statuses. -/
def statusStr : Status → String
  | Status.queued => "queued"
  | Status.in_progress => "in_progress"
  | Status.completed => "completed"
  | Status.failed => "failed"

/-- `estimatedCompletion` (part_001 lines 135-137):
`in_progress ? Math.min(95, Math.floor((len / 3000) * 100)) : (completed ?
100 : 0)`, with the floor taken exactly over the rationals (`len * 100 /
3000` in ℕ). -/
def estComp (job : Job) : Nat :=
  if job.status = Status.in_progress then min 95 (job.text.length * 100 / 3000)
  else if job.status = Status.completed then 100 else 0

/-- The `/api/status/:jobId` handler (part_001 lines 117-140): 404 for an
unknown id; otherwise 200 with status, scenario (`job.text || ""`), error,
tokensUsed and the progress object. -/
def apiStatus (s : Store) (id : String) : Nat × List (String × JsonVal) :=
  match jget s id with
  | none => (404, [("success", JsonVal.jbool false), ("error", JsonVal.jstr "Job not found")])
  | some job =>
    (200,
     [("success", JsonVal.jbool true),
      ("status", JsonVal.jstr (statusStr job.status)),
      ("scenario", JsonVal.jstr (if job.text = "" then "" else job.text)),
      ("error", match job.error with | none => JsonVal.jnull | some e => JsonVal.jstr e),
      ("tokensUsed", JsonVal.jnum (job.tokensUsed : ℚ)),
      ("progress", JsonVal.jobj
        [("characterCount",
          JsonVal.jnum ((if job.text = "" then 0 else job.text.length : Nat) : ℚ)),
         ("estimatedCompletion", JsonVal.jnum ((estComp job : Nat) : ℚ))])])

/-- The legacy `/status/:jobId` handler (src/index.js lines 28-32): 404 for
an unknown id, otherwise only success, status, scenario (`job.text || null`)
and error. -/
def legacyStatus (s : LStore) (id : String) : Nat × List (String × JsonVal) :=
  match ljget s id with
  | none => (404, [("error", JsonVal.jstr "Job not found")])
  | some job =>
    (200,
     [("success", JsonVal.jbool true),
      ("status", JsonVal.jstr (statusStr job.status)),
      ("scenario", if job.text = "" then JsonVal.jnull else JsonVal.jstr job.text),
      ("error", match job.error with | none => JsonVal.jnull | some e => JsonVal.jstr e)])

/-- C9 counterexample. The claim says a known id yields a 200 response
carrying `tokensUsed` and a `progress` object. The legacy `/status` handler
(src/index.js lines 28-32) answers 200 for a known in-progress job but its
body has neither a `tokensUsed` nor a `progress` field. -/
theorem c9_legacy_status_missing_fields :
    (legacyStatus
        (ljset [] "job-1" { status := Status.in_progress, text := "abc", error := none })
        "job-1").1 = 200 ∧
    ((legacyStatus
        (ljset [] "job-1" { status := Status.in_progress, text := "abc", error := none })
        "job-1").2.lookup "tokensUsed" = none ∧
     (legacyStatus
        (ljset [] "job-1" { status := Status.in_progress, text := "abc", error := none })
        "job-1").2.lookup "progress" = none) := by
  refine ⟨rfl, rfl, rfl⟩

/-- C9 as amended: the full claim holds of the `/api/status` handler
(part_001 and part_002) — 404 with "Job not found" on an unknown id, and on
a known id a 200 carrying the status, the current text, the error, the token
count and the progress object whose `estimatedCompletion` is 0 when queued,
`min(95, floor(len/3000*100))` while in progress and 100 when completed (and
0 when failed). The legacy `/status` handler omits `tokensUsed` and
`progress` (see the counterexample). -/
theorem c9_status_poll (s : Store) (id : String) :
    (jget s id = none →
      apiStatus s id =
        (404, [("success", JsonVal.jbool false), ("error", JsonVal.jstr "Job not found")])) ∧
    (∀ job, jget s id = some job →
      (apiStatus s id).1 = 200 ∧
      (apiStatus s id).2.lookup "status" = some (JsonVal.jstr (statusStr job.status)) ∧
      (apiStatus s id).2.lookup "scenario" = some (JsonVal.jstr job.text) ∧
      (apiStatus s id).2.lookup "error" =
        some (match job.error with | none => JsonVal.jnull | some e => JsonVal.jstr e) ∧
      (apiStatus s id).2.lookup "tokensUsed" = some (JsonVal.jnum (job.tokensUsed : ℚ)) ∧
      (apiStatus s id).2.lookup "progress" = some (JsonVal.jobj
        [("characterCount", JsonVal.jnum ((job.text.length : Nat) : ℚ)),
         ("estimatedCompletion", JsonVal.jnum ((estComp job : Nat) : ℚ))]) ∧
      (job.status = Status.queued → estComp job = 0) ∧
      (job.status = Status.in_progress →
        estComp job = min 95 (job.text.length * 100 / 3000)) ∧
      (job.status = Status.completed → estComp job = 100)) := by
  constructor
  · intro h
    simp [apiStatus, h]
  · intro job hj
    have htext : (if job.text = "" then "" else job.text) = job.text := by
      by_cases he : job.text = ""
      · rw [if_pos he, he]
      · rw [if_neg he]
    have hcount : (if job.text = "" then 0 else job.text.length : Nat) =
        job.text.length := by
      by_cases he : job.text = ""
      · rw [if_pos he, he]
        rfl
      · rw [if_neg he]
    refine ⟨?_, ?_, ?_, ?_, ?_, ?_, ?_, ?_, ?_⟩
    · simp [apiStatus, hj]
    · simp [apiStatus, hj, List.lookup]
    · simp [apiStatus, hj, List.lookup, htext]
    · simp [apiStatus, hj, List.lookup]
    · simp [apiStatus, hj, List.lookup]
    · have hp : (apiStatus s id).2.lookup "progress" = some (JsonVal.jobj
          [("characterCount",
            JsonVal.jnum ((if job.text = "" then 0 else job.text.length : Nat) : ℚ)),
           ("estimatedCompletion", JsonVal.jnum ((estComp job : Nat) : ℚ))]) := by
        simp [apiStatus, hj, List.lookup]
      rw [hp, hcount]
    · intro hs
      simp [estComp, hs]
    · intro hs
      simp [estComp, hs]
    · intro hs
      simp [estComp, hs]

/-- The job and store used by the C9 witness. -/
def wJob : Job :=
  { status := Status.in_progress, text := "abcd", error := none, createdAt := 0, tokensUsed := 3 }

/-- Witness store holding `wJob` under "job-w". -/
def wStore : Store := jset [] "job-w" wJob

/-- Witness for C9 at a concrete known id. -/
theorem c9_status_poll_witness :
    jget wStore "job-w" = some wJob ∧
    ((apiStatus wStore "job-w").1 = 200 ∧
     (apiStatus wStore "job-w").2.lookup "status" = some (JsonVal.jstr (statusStr wJob.status)) ∧
     (apiStatus wStore "job-w").2.lookup "scenario" = some (JsonVal.jstr wJob.text) ∧
     (apiStatus wStore "job-w").2.lookup "error" =
       some (match wJob.error with | none => JsonVal.jnull | some e => JsonVal.jstr e) ∧
     (apiStatus wStore "job-w").2.lookup "tokensUsed" =
       some (JsonVal.jnum (wJob.tokensUsed : ℚ)) ∧
     (apiStatus wStore "job-w").2.lookup "progress" = some (JsonVal.jobj
       [("characterCount", JsonVal.jnum ((wJob.text.length : Nat) : ℚ)),
        ("estimatedCompletion", JsonVal.jnum ((estComp wJob : Nat) : ℚ))]) ∧
     (wJob.status = Status.queued → estComp wJob = 0) ∧
     (wJob.status = Status.in_progress →
       estComp wJob = min 95 (wJob.text.length * 100 / 3000)) ∧
     (wJob.status = Status.completed → estComp wJob = 100)) :=
  ⟨rfl, (c9_status_poll wStore "job-w").2 wJob rfl⟩

/-!
Simulated chunked delivery (part_001 lines 281-311): when no native deltas
arrived but a final text exists, the loop writes
`fullText.substring(0, delivered + 150)` into the job every 300 ms until
`delivered >= fullText.length`. `chunkLoop` is the sequence of snapshots the
loop writes; the store-level effect reuses `jupdateText` in the lifecycle
model below.
-/

/-- JS `t.substring(0, n)`: the first `n` UTF-16 units (all of `t` when `n`
exceeds its length). -/
def jsSubstringTo (t : String) (n : Nat) : String :=
  ⟨t.data.take n⟩

/-- The snapshots written by the delivery loop (part_001 lines 290-308),
starting from `delivered`: while `delivered < fullText.length`, emit
`fullText.substring(0, delivered + 150)` and advance `delivered` by 150
(CHUNK_SIZE). -/
def chunkLoop (t : String) (delivered : Nat) : List String :=
  if delivered < t.length then
    jsSubstringTo t (delivered + 150) :: chunkLoop t (delivered + 150)
  else []
termination_by t.length - delivered
decreasing_by omega

theorem chunkLoop_step (t : String) (d : Nat) (hd : d < t.length) :
    chunkLoop t d = jsSubstringTo t (d + 150) :: chunkLoop t (d + 150) := by
  conv_lhs => rw [chunkLoop.eq_def]
  rw [if_pos hd]

theorem chunkLoop_stop (t : String) (d : Nat) (hd : ¬d < t.length) :
    chunkLoop t d = [] := by
  conv_lhs => rw [chunkLoop.eq_def]
  rw [if_neg hd]

theorem chunkPair (t : String) (m n : Nat) (hm : m < t.length) (hmn : m < n) :
    (jsSubstringTo t m).length < (jsSubstringTo t n).length ∧
    (jsSubstringTo t n).data.take (jsSubstringTo t m).length = (jsSubstringTo t m).data := by
  have hdl : t.data.length = t.length := rfl
  have hL : (jsSubstringTo t m).length = m := by
    show (t.data.take m).length = m
    rw [List.length_take]
    omega
  refine ⟨?_, ?_⟩
  · rw [hL]
    show m < (t.data.take n).length
    rw [List.length_take]
    omega
  · rw [hL]
    show (t.data.take n).take m = t.data.take m
    rw [List.take_take, min_eq_left (Nat.le_of_lt hmn)]

/-- C5. For a final text of length 1000 and no native deltas, the simulated
chunked delivery writes exactly ceil(1000/150) = 7 snapshots; each snapshot
is a strict prefix extension of the previous one (strictly longer, and the
previous snapshot is literally its prefix); the last snapshot is the full
text. -/
theorem c5_chunked_snapshots (t : String) (h : t.length = 1000) :
    (chunkLoop t 0).length = 7 ∧
    List.Chain' (fun a b => a.length < b.length ∧ b.data.take a.length = a.data)
      (chunkLoop t 0) ∧
    (chunkLoop t 0).getLast? = some t := by
  have hfull : jsSubstringTo t 1050 = t := by
    show (⟨t.data.take 1050⟩ : String) = t
    have hdl : t.data.length = t.length := rfl
    rw [List.take_of_length_le (by omega)]
  have E : chunkLoop t 0 =
      [jsSubstringTo t 150, jsSubstringTo t 300, jsSubstringTo t 450, jsSubstringTo t 600,
       jsSubstringTo t 750, jsSubstringTo t 900, jsSubstringTo t 1050] := by
    rw [chunkLoop_step t 0 (by omega), chunkLoop_step t 150 (by omega),
      chunkLoop_step t 300 (by omega), chunkLoop_step t 450 (by omega),
      chunkLoop_step t 600 (by omega), chunkLoop_step t 750 (by omega),
      chunkLoop_step t 900 (by omega), chunkLoop_stop t 1050 (by omega)]
  refine ⟨?_, ?_, ?_⟩
  · rw [E]
    rfl
  · rw [E]
    simp only [List.chain'_cons, List.chain'_singleton, and_true]
    exact ⟨chunkPair t 150 300 (by omega) (by omega),
      chunkPair t 300 450 (by omega) (by omega),
      chunkPair t 450 600 (by omega) (by omega),
      chunkPair t 600 750 (by omega) (by omega),
      chunkPair t 750 900 (by omega) (by omega),
      chunkPair t 900 1050 (by omega) (by omega)⟩
  · rw [E, hfull]
    rfl

/-- Witness for C5 at a concrete 1000-character text. -/
theorem c5_chunked_snapshots_witness :
    (String.mk (List.replicate 1000 'a')).length = 1000 ∧
    ((chunkLoop (String.mk (List.replicate 1000 'a')) 0).length = 7 ∧
     List.Chain' (fun a b => a.length < b.length ∧ b.data.take a.length = a.data)
       (chunkLoop (String.mk (List.replicate 1000 'a')) 0) ∧
     (chunkLoop (String.mk (List.replicate 1000 'a')) 0).getLast? =
       some (String.mk (List.replicate 1000 'a'))) :=
  ⟨by
    show (List.replicate 1000 'a').length = 1000
    rw [List.length_replicate],
   c5_chunked_snapshots _ (by
    show (List.replicate 1000 'a').length = 1000
    rw [List.length_replicate])⟩

/-!
The streaming lifecycle `runStreamingJob` (part_001 lines 148-273), as a
trace semantics. The stream's events are abstracted by `Ev` (only the shapes
lines 174-237 inspect); the reaper may delete the job at any await point, so
the schedule `Sched` carries one deletion flag per interleaving point; an
upstream exception after a prefix of events is `Sched.thrown`. The run
returns the final store and the trace of record snapshots (the value of
`jobs.get(jobId)`) after every store operation.
-/

/-- A content block `{type, text}` as inspected in lines 197-207 and 221-235
(a missing `text` is as falsy as the empty string). -/
structure ContentBlock where
  type : String
  text : String

/-- An output item `{type, content}` of a `response.done` event
(lines 221-235); a missing or non-array `content` is the empty list, which
the fold treats identically. -/
structure OutputItem where
  type : String
  content : List ContentBlock

/-- One stream event, covering the cases of lines 174-237:
`response.output_item.delta` with an optional `delta` `{type, text}`;
`response.output_item.done` with a message item carrying a content array, or
any other item; `response.done` with optional usage and an output array; any
other event type. -/
inductive Ev where
  | itemDelta (delta : Option (String × String))
  | itemDoneMessage (content : List ContentBlock)
  | itemDoneOther
  | respDone (usage : Option Nat) (output : List OutputItem)
  | otherEvent

/-- The loop state of `runStreamingJob`: the local accumulators `fullText`,
`totalTokens`, `receivedDeltas` (lines 169-171) and the job store. -/
structure RunSt where
  fullText : String
  totalTokens : Nat
  receivedDeltas : Bool
  store : Store

/-- Lines 198-207 and 224-233, one content block: replace `fullText` when
the block is `output_text` with truthy text longer than the buffer. -/
def contentStep (acc : String) (c : ContentBlock) : String :=
  if c.type = "output_text" ∧ c.text ≠ "" ∧ acc.length < c.text.length then c.text else acc

/-- The fold of `contentStep` over a content array. -/
def contentFold (blocks : List ContentBlock) (t : String) : String :=
  blocks.foldl contentStep t

/-- Lines 221-235, one output item of `response.done`: message items fold
their content. -/
def outputStep (acc : String) (it : OutputItem) : String :=
  if it.type = "message" then contentFold it.content acc else acc

/-- The fold over the `response.done` output array. -/
def outputFold (output : List OutputItem) (t : String) : String :=
  output.foldl outputStep t

/-- One iteration of the event loop (lines 174-237). An
`response.output_item.delta` event sets `receivedDeltas` first (line 181)
and, when the delta is a truthy `text_delta`, appends it to `fullText` and
performs the guarded store write of lines 185-189; the two done events only
update the local buffer; `response.done` also records usage (lines 215-218). -/
def stepEv (id : String) (st : RunSt) (e : Ev) : RunSt :=
  match e with
  | Ev.itemDelta d =>
    let st1 := { st with receivedDeltas := true }
    match d with
    | some (dty, dtx) =>
      if dty = "text_delta" ∧ dtx ≠ "" then
        { st1 with fullText := st1.fullText ++ dtx,
                   store := jupdateText st1.store id (st1.fullText ++ dtx) }
      else st1
    | none => st1
  | Ev.itemDoneMessage content => { st with fullText := contentFold content st.fullText }
  | Ev.itemDoneOther => st
  | Ev.respDone usage output =>
    { st with totalTokens := (match usage with | some u => u | none => st.totalTokens),
              fullText := outputFold output st.fullText }
  | Ev.otherEvent => st

/-- The reaper's possible deletion at an await point. -/
def delIf (b : Bool) (id : String) (s : Store) : Store :=
  if b then jdelete s id else s

/-- The event loop with the reaper interleaved: before each event (an await
point) the reaper may delete the job. Snapshots record the store after the
possible deletion and after the event. -/
def runLoop (id : String) : List (Bool × Ev) → RunSt → RunSt × List (Option Job)
  | [], st => (st, [])
  | (del, e) :: rest, st =>
    ((runLoop id rest (stepEv id { st with store := delIf del id st.store } e)).1,
     jget (delIf del id st.store) id ::
       jget (stepEv id { st with store := delIf del id st.store } e).store id ::
       (runLoop id rest (stepEv id { st with store := delIf del id st.store } e)).2)

/-- The store-level delivery loop (part_001 lines 290-308) with the reaper
interleaved at the 300 ms delays: each iteration may be preceded by a
deletion, then performs the guarded chunk write of lines 295-298. -/
def simLoop (id : String) (t : String) (delivered : Nat) (dels : List Bool) (s : Store) :
    Store × List (Option Job) :=
  if delivered < t.length then
    ((simLoop id t (delivered + 150) dels.tail
        (jupdateText (delIf (dels.headD false) id s) id (jsSubstringTo t (delivered + 150)))).1,
     jget (delIf (dels.headD false) id s) id ::
       jget (jupdateText (delIf (dels.headD false) id s) id
         (jsSubstringTo t (delivered + 150))) id ::
       (simLoop id t (delivered + 150) dels.tail
         (jupdateText (delIf (dels.headD false) id s) id (jsSubstringTo t (delivered + 150)))).2)
  else (s, [])
termination_by t.length - delivered
decreasing_by omega

/-- `simulateChunkedDelivery` (part_001 lines 281-311): return immediately
when the job is already gone (lines 285-286), otherwise run the delivery
loop. -/
def simulateChunkedDelivery (id : String) (t : String) (dels : List Bool) (s : Store) :
    Store × List (Option Job) :=
  match jget s id with
  | none => (s, [])
  | some _ => simLoop id t 0 dels s

/-- The deletion schedule and failure injection of one lifecycle run:
`delAtStart` — deletion before the task's first statement (impossible in the
event loop, the model proves it harmless anyway); `evs` — the events
processed, each with a deletion flag for the await before it; `thrown` — an
exception (with `err.message`) ending the stream after `evs`, sending the
task to the catch; the remaining flags are deletions at the later awaits;
`simDels` — deletions at the delivery delays. -/
structure Sched where
  delAtStart : Bool
  evs : List (Bool × Ev)
  thrown : Option String
  delBeforeCatch : Bool
  delBeforeSim : Bool
  simDels : List Bool
  delBeforeFinal : Bool

/-- The catch handler (lines 262-272): a possible deletion while the
exception unwinds, then the guarded failure write. -/
def catchPhase (id : String) (msg : String) (delCatch : Bool) (s : Store) :
    Store × List (Option Job) :=
  (failureWrite (delIf delCatch id s) id msg,
   [jget (delIf delCatch id s) id, jget (failureWrite (delIf delCatch id s) id msg) id])

/-- Lines 239-249: either the simulated chunked delivery (no deltas and a
non-empty text, lines 240-243) or the guarded text sync of lines 244-249,
the whole phase preceded by a possible deletion. -/
def deliverPhase (id : String) (sch : Sched) (st : RunSt) : Store × List (Option Job) :=
  if st.receivedDeltas = false ∧ st.fullText ≠ "" then
    simulateChunkedDelivery id st.fullText sch.simDels (delIf sch.delBeforeSim id st.store)
  else
    (jupdateText (delIf sch.delBeforeSim id st.store) id st.fullText,
     [jget (jupdateText (delIf sch.delBeforeSim id st.store) id st.fullText) id])

/-- Lines 252-258: the guarded completion write, preceded by a possible
deletion, appended to the delivery phase's outcome. -/
def finishPhase (id : String) (delFinal : Bool) (full : String) (tok : Nat)
    (P : Store × List (Option Job)) : Store × List (Option Job) :=
  (completionWrite (delIf delFinal id P.1) id full tok,
   P.2 ++ [jget (delIf delFinal id P.1) id,
           jget (completionWrite (delIf delFinal id P.1) id full tok) id])

/-- Lines 239-272 after the event loop: the catch when the stream threw,
otherwise delivery then completion. -/
def afterLoop (id : String) (sch : Sched) (st : RunSt) : Store × List (Option Job) :=
  match sch.thrown with
  | some msg => catchPhase id msg sch.delBeforeCatch st.store
  | none =>
    ((finishPhase id sch.delBeforeFinal st.fullText st.totalTokens (deliverPhase id sch st)).1,
     jget (delIf sch.delBeforeSim id st.store) id ::
       (finishPhase id sch.delBeforeFinal st.fullText st.totalTokens (deliverPhase id sch st)).2)

/-- One run of `runStreamingJob` (lines 148-273): the unguarded
`in_progress` transition (lines 150-153); on its `TypeError` (only possible
against a deleted record) straight to the catch; otherwise the event loop,
then `afterLoop`. The snapshot trace records `jobs.get(jobId)` after every
store operation. -/
def runStreamingJob (id : String) (sch : Sched) (s0 : Store) : Store × List (Option Job) :=
  match markInProgress (delIf sch.delAtStart id s0) id with
  | Except.error msg =>
    ((catchPhase id msg sch.delBeforeCatch (delIf sch.delAtStart id s0)).1,
     jget (delIf sch.delAtStart id s0) id ::
       (catchPhase id msg sch.delBeforeCatch (delIf sch.delAtStart id s0)).2)
  | Except.ok s1 =>
    ((afterLoop id sch
        (runLoop id sch.evs { fullText := "", totalTokens := 0,
                              receivedDeltas := false, store := s1 }).1).1,
     jget (delIf sch.delAtStart id s0) id :: jget s1 id ::
       ((runLoop id sch.evs { fullText := "", totalTokens := 0,
                              receivedDeltas := false, store := s1 }).2 ++
        (afterLoop id sch
          (runLoop id sch.evs { fullText := "", totalTokens := 0,
                                receivedDeltas := false, store := s1 }).1).2))

/-- The job's whole observable lifetime: the create handler's insertion of
the queued record (part_001 lines 72-79) followed by the lifecycle task,
under an arbitrary deletion schedule. -/
def createAndRun (id : String) (now : Nat) (sch : Sched) (s : Store) :
    Store × List (Option Job) :=
  ((runStreamingJob id sch (jset s id (initialJob now))).1,
   jget (jset s id (initialJob now)) id ::
     (runStreamingJob id sch (jset s id (initialJob now))).2)

/-- The statuses a record snapshot sequence exhibits (absent snapshots are
not observable — the poll answers 404). -/
def statusSnaps (snaps : List (Option Job)) : List Status :=
  snaps.filterMap (fun oj => oj.map Job.status)

/-- Collapse of consecutive repeats: the sequence of status values the
record takes. -/
def collapseRuns : List Status → List Status
  | [] => []
  | a :: rest =>
    match rest with
    | [] => [a]
    | b :: _ => if a = b then collapseRuns rest else a :: collapseRuns rest

/-- Subsequence test. -/
def isSub : List Status → List Status → Bool
  | [], _ => true
  | _ :: _, [] => false
  | a :: l1, b :: l2 => if a = b then isSub l1 l2 else isSub (a :: l1) l2

/-- Relation between consecutive record snapshots: while the record exists
its text length never shrinks, and a deleted record never reappears. -/
def textStep : Option Job → Option Job → Prop
  | some j1, some j2 => j1.text.length ≤ j2.text.length
  | _, none => True
  | none, some _ => False

/-- A snapshot at which the record, if present, is `in_progress`. -/
def IPre (oj : Option Job) : Prop :=
  ∀ j, oj = some j → j.status = Status.in_progress

/-- The loop invariant: the record's text never outruns the local buffer. -/
def RecLe (st : RunSt) (id : String) : Prop :=
  ∀ j, jget st.store id = some j → j.text.length ≤ st.fullText.length

theorem jget_jupdateText_self (s : Store) (id : String) (t : String) :
    jget (jupdateText s id t) id =
      Option.map (fun j => { j with text := t }) (jget s id) := by
  cases h : jget s id with
  | none => simp [jupdateText, h]
  | some j => simp [jupdateText, h]

theorem jget_completionWrite_self (s : Store) (id : String) (t : String) (tok : Nat) :
    jget (completionWrite s id t tok) id =
      Option.map (fun j => { j with status := Status.completed, text := t, tokensUsed := tok })
        (jget s id) := by
  cases h : jget s id with
  | none => simp [completionWrite, h]
  | some j => simp [completionWrite, h]

theorem jget_failureWrite_self (s : Store) (id : String) (msg : String) :
    jget (failureWrite s id msg) id =
      Option.map (fun j =>
          { j with status := Status.failed,
                   error := some (if msg = "" then "Stream failed" else msg) })
        (jget s id) := by
  cases h : jget s id with
  | none => simp [failureWrite, h]
  | some j => simp [failureWrite, h]

theorem textStep_none_right (oj : Option Job) : textStep oj none := by
  cases oj with
  | none => trivial
  | some j => trivial

theorem textStep_refl (oj : Option Job) : textStep oj oj := by
  cases oj with
  | none => trivial
  | some j => exact le_rfl

theorem IPre_none : IPre none := by
  intro j h
  cases h

theorem IPre_delIf (b : Bool) (id : String) (s : Store) (h : IPre (jget s id)) :
    IPre (jget (delIf b id s) id) := by
  cases b
  · simpa [delIf] using h
  · simp only [delIf, if_pos]
    rw [jget_jdelete_self]
    exact IPre_none

theorem textStep_delIf (b : Bool) (id : String) (s : Store) :
    textStep (jget s id) (jget (delIf b id s) id) := by
  cases b
  · simpa [delIf] using textStep_refl _
  · simp only [delIf, if_pos]
    rw [jget_jdelete_self]
    exact textStep_none_right _

theorem jget_delIf_cases (b : Bool) (id : String) (s : Store) :
    jget (delIf b id s) id = none ∨ jget (delIf b id s) id = jget s id := by
  cases b
  · exact Or.inr (by simp [delIf])
  · exact Or.inl (by simp [delIf, jget_jdelete_self])

theorem foldl_len_mono {α : Type} (f : String → α → String)
    (hf : ∀ a c, a.length ≤ (f a c).length) (l : List α) (t : String) :
    t.length ≤ (l.foldl f t).length := by
  induction l generalizing t with
  | nil => exact le_rfl
  | cons c rest ih => exact le_trans (hf t c) (ih (f t c))

theorem contentStep_len (acc : String) (c : ContentBlock) :
    acc.length ≤ (contentStep acc c).length := by
  unfold contentStep
  split_ifs with h
  · exact le_of_lt h.2.2
  · exact le_rfl

theorem contentFold_len (blocks : List ContentBlock) (t : String) :
    t.length ≤ (contentFold blocks t).length :=
  foldl_len_mono contentStep contentStep_len blocks t

theorem outputStep_len (acc : String) (it : OutputItem) :
    acc.length ≤ (outputStep acc it).length := by
  unfold outputStep
  split_ifs with h
  · exact contentFold_len _ _
  · exact le_rfl

theorem outputFold_len (output : List OutputItem) (t : String) :
    t.length ≤ (outputFold output t).length :=
  foldl_len_mono outputStep outputStep_len output t

theorem stepEv_store_cases (id : String) (st : RunSt) (e : Ev) :
    (stepEv id st e).store = st.store ∨
    (stepEv id st e).store = jupdateText st.store id (stepEv id st e).fullText := by
  cases e with
  | itemDelta d =>
    cases d with
    | none => exact Or.inl rfl
    | some p =>
      obtain ⟨dty, dtx⟩ := p
      by_cases hc : dty = "text_delta" ∧ dtx ≠ ""
      · right
        simp [stepEv, hc]
      · left
        simp [stepEv, hc]
  | itemDoneMessage content => exact Or.inl rfl
  | itemDoneOther => exact Or.inl rfl
  | respDone u o => exact Or.inl rfl
  | otherEvent => exact Or.inl rfl

theorem stepEv_fullText_len (id : String) (st : RunSt) (e : Ev) :
    st.fullText.length ≤ (stepEv id st e).fullText.length := by
  cases e with
  | itemDelta d =>
    cases d with
    | none => exact le_rfl
    | some p =>
      obtain ⟨dty, dtx⟩ := p
      by_cases hc : dty = "text_delta" ∧ dtx ≠ ""
      · simp [stepEv, hc, String.length_append]
      · simp [stepEv, hc]
  | itemDoneMessage content => exact contentFold_len content st.fullText
  | itemDoneOther => exact le_rfl
  | respDone u o => exact outputFold_len o st.fullText
  | otherEvent => exact le_rfl

theorem stepEv_rd_false (id : String) (st : RunSt) (e : Ev)
    (h : (stepEv id st e).receivedDeltas = false) :
    st.receivedDeltas = false ∧ (stepEv id st e).store = st.store := by
  cases e with
  | itemDelta d =>
    exfalso
    cases d with
    | none => simp [stepEv] at h
    | some p =>
      obtain ⟨dty, dtx⟩ := p
      by_cases hc : dty = "text_delta" ∧ dtx ≠ ""
      · simp [stepEv, hc] at h
      · simp [stepEv, hc] at h
  | itemDoneMessage content => exact ⟨h, rfl⟩
  | itemDoneOther => exact ⟨h, rfl⟩
  | respDone u o => exact ⟨h, rfl⟩
  | otherEvent => exact ⟨h, rfl⟩

theorem stepEv_IPre (id : String) (st : RunSt) (e : Ev) (h : IPre (jget st.store id)) :
    IPre (jget (stepEv id st e).store id) := by
  rcases stepEv_store_cases id st e with hs | hs
  · rw [hs]
    exact h
  · rw [hs, jget_jupdateText_self]
    intro j hj
    cases hg : jget st.store id with
    | none => rw [hg] at hj; cases hj
    | some j' =>
      rw [hg] at hj
      simp only [Option.map_some'] at hj
      cases hj
      exact h j' hg

theorem stepEv_RecLe (id : String) (st : RunSt) (e : Ev) (h : RecLe st id) :
    RecLe (stepEv id st e) id := by
  rcases stepEv_store_cases id st e with hs | hs
  · intro j hj
    rw [hs] at hj
    exact le_trans (h j hj) (stepEv_fullText_len id st e)
  · intro j hj
    rw [hs, jget_jupdateText_self] at hj
    cases hg : jget st.store id with
    | none => rw [hg] at hj; cases hj
    | some j' =>
      rw [hg] at hj
      simp only [Option.map_some'] at hj
      cases hj
      exact le_rfl

theorem stepEv_chain (id : String) (st : RunSt) (e : Ev) (h : RecLe st id) :
    textStep (jget st.store id) (jget (stepEv id st e).store id) := by
  rcases stepEv_store_cases id st e with hs | hs
  · rw [hs]
    exact textStep_refl _
  · rw [hs, jget_jupdateText_self]
    cases hg : jget st.store id with
    | none => exact trivial
    | some j' =>
      simp only [Option.map_some']
      show j'.text.length ≤ (stepEv id st e).fullText.length
      exact le_trans (h j' hg) (stepEv_fullText_len id st e)

theorem chain'_of_cons_append {x : Option Job} {l1 l2 : List (Option Job)}
    (h1 : List.Chain' textStep (x :: l1))
    (h2 : List.Chain' textStep (l1.getLastD x :: l2)) :
    List.Chain' textStep (x :: (l1 ++ l2)) := by
  induction l1 generalizing x with
  | nil => simpa using h2
  | cons a rest ih =>
    rw [List.cons_append]
    rw [List.chain'_cons] at h1 ⊢
    refine ⟨h1.1, ?_⟩
    exact ih h1.2 (by rw [List.getLastD_cons] at h2; exact h2)

/-- Invariants of the event loop: every snapshot is absent-or-in-progress;
the invariants survive to the final state; the buffer never shrinks; if no
delta event was seen the record is untouched (or deleted); the snapshot
trace is a `textStep` chain ending at the final store's record. -/
theorem runLoop_master (id : String) (evs : List (Bool × Ev)) (st : RunSt)
    (hIP : IPre (jget st.store id)) (hLe : RecLe st id) :
    (∀ oj ∈ (runLoop id evs st).2, IPre oj) ∧
    IPre (jget (runLoop id evs st).1.store id) ∧
    RecLe (runLoop id evs st).1 id ∧
    st.fullText.length ≤ (runLoop id evs st).1.fullText.length ∧
    ((runLoop id evs st).1.receivedDeltas = false →
      st.receivedDeltas = false ∧
      (jget (runLoop id evs st).1.store id = none ∨
       jget (runLoop id evs st).1.store id = jget st.store id)) ∧
    List.Chain' textStep (jget st.store id :: (runLoop id evs st).2) ∧
    (runLoop id evs st).2.getLastD (jget st.store id) =
      jget (runLoop id evs st).1.store id := by
  induction evs generalizing st with
  | nil =>
    refine ⟨by simp [runLoop], hIP, hLe, le_rfl, fun h => ⟨h, Or.inr rfl⟩, ?_, rfl⟩
    simp [runLoop]
  | cons p rest ih =>
    obtain ⟨del, e⟩ := p
    have hq1IP : IPre (jget (delIf del id st.store) id) := IPre_delIf del id st.store hIP
    have hq1Le : RecLe { st with store := delIf del id st.store } id := by
      intro j hj
      have hj' : jget (delIf del id st.store) id = some j := hj
      rcases jget_delIf_cases del id st.store with hc | hc
      · rw [hc] at hj'
        cases hj'
      · rw [hc] at hj'
        exact hLe j hj'
    have hst2IP : IPre (jget (stepEv id { st with store := delIf del id st.store } e).store id) :=
      stepEv_IPre id _ e hq1IP
    have hst2Le : RecLe (stepEv id { st with store := delIf del id st.store } e) id :=
      stepEv_RecLe id _ e hq1Le
    obtain ⟨ih1, ih2, ih3, ih4, ih5, ih6, ih7⟩ :=
      ih (stepEv id { st with store := delIf del id st.store } e) hst2IP hst2Le
    simp only [runLoop]
    refine ⟨?_, ih2, ih3, ?_, ?_, ?_, ?_⟩
    · intro oj hm
      simp only [List.mem_cons] at hm
      rcases hm with rfl | rfl | hm
      · exact hq1IP
      · exact hst2IP
      · exact ih1 oj hm
    · exact le_trans (stepEv_fullText_len id { st with store := delIf del id st.store } e) ih4
    · intro hrd
      obtain ⟨hrd2, hrec⟩ := ih5 hrd
      obtain ⟨hrd1, hstore⟩ :=
        stepEv_rd_false id { st with store := delIf del id st.store } e hrd2
      refine ⟨hrd1, ?_⟩
      rcases hrec with hn | he
      · exact Or.inl hn
      · rw [he, hstore]
        exact jget_delIf_cases del id st.store
    · rw [List.chain'_cons]
      refine ⟨textStep_delIf del id st.store, ?_⟩
      rw [List.chain'_cons]
      exact ⟨stepEv_chain id { st with store := delIf del id st.store } e hq1Le, ih6⟩
    · rw [List.getLastD_cons, List.getLastD_cons]
      exact ih7

theorem jsSubstringTo_length (t : String) (n : Nat) :
    (jsSubstringTo t n).length = min n t.length := by
  show (t.data.take n).length = min n t.data.length
  exact List.length_take n t.data

theorem IPre_jupdateText (s : Store) (id : String) (t' : String)
    (h : IPre (jget s id)) : IPre (jget (jupdateText s id t') id) := by
  rw [jget_jupdateText_self]
  intro j hj
  cases hg : jget s id with
  | none => rw [hg] at hj; cases hj
  | some j' =>
    rw [hg] at hj
    simp only [Option.map_some'] at hj
    cases hj
    exact h j' hg

/-- Invariants of the delivery loop: every snapshot is absent-or-in-progress,
the final record (if any) never exceeds the final text, and the snapshots
form a `textStep` chain ending at the final store's record. -/
theorem simLoop_master (id : String) (t : String) :
    ∀ (delivered : Nat) (dels : List Bool) (s : Store),
      IPre (jget s id) →
      (∀ j, jget s id = some j → j.text.length ≤ delivered ∧ j.text.length ≤ t.length) →
      (∀ oj ∈ (simLoop id t delivered dels s).2, IPre oj) ∧
      IPre (jget (simLoop id t delivered dels s).1 id) ∧
      (∀ j, jget (simLoop id t delivered dels s).1 id = some j → j.text.length ≤ t.length) ∧
      List.Chain' textStep (jget s id :: (simLoop id t delivered dels s).2) ∧
      (simLoop id t delivered dels s).2.getLastD (jget s id) =
        jget (simLoop id t delivered dels s).1 id := by
  intro d0 dels0 s0
  induction d0, dels0, s0 using simLoop.induct id t with
  | case1 d dels s hd ih =>
    intro hIP hLe
    have hq1IP : IPre (jget (delIf (dels.headD false) id s) id) :=
      IPre_delIf (dels.headD false) id s hIP
    have hs2IP : IPre (jget (jupdateText (delIf (dels.headD false) id s) id
        (jsSubstringTo t (d + 150))) id) :=
      IPre_jupdateText _ id _ hq1IP
    have hq1Le : ∀ j, jget (delIf (dels.headD false) id s) id = some j →
        j.text.length ≤ d ∧ j.text.length ≤ t.length := by
      intro j hj
      rcases jget_delIf_cases (dels.headD false) id s with hc | hc
      · rw [hc] at hj
        cases hj
      · rw [hc] at hj
        exact hLe j hj
    have hs2Le : ∀ j, jget (jupdateText (delIf (dels.headD false) id s) id
        (jsSubstringTo t (d + 150))) id = some j →
        j.text.length ≤ d + 150 ∧ j.text.length ≤ t.length := by
      intro j hj
      rw [jget_jupdateText_self] at hj
      cases hg : jget (delIf (dels.headD false) id s) id with
      | none => rw [hg] at hj; cases hj
      | some j' =>
        rw [hg] at hj
        simp only [Option.map_some'] at hj
        cases hj
        show (jsSubstringTo t (d + 150)).length ≤ d + 150 ∧
          (jsSubstringTo t (d + 150)).length ≤ t.length
        rw [jsSubstringTo_length]
        exact ⟨min_le_left _ _, min_le_right _ _⟩
    obtain ⟨ih1, ih2, ih3, ih4, ih5⟩ := ih hs2IP hs2Le
    have hchain12 : textStep (jget (delIf (dels.headD false) id s) id)
        (jget (jupdateText (delIf (dels.headD false) id s) id
          (jsSubstringTo t (d + 150))) id) := by
      rw [jget_jupdateText_self]
      cases hg : jget (delIf (dels.headD false) id s) id with
      | none => exact trivial
      | some j' =>
        simp only [Option.map_some']
        show j'.text.length ≤ (jsSubstringTo t (d + 150)).length
        rw [jsSubstringTo_length]
        have := (hq1Le j' hg).1
        omega
    rw [simLoop.eq_def, if_pos hd]
    refine ⟨?_, ih2, ih3, ?_, ?_⟩
    · intro oj hm
      simp only [List.mem_cons] at hm
      rcases hm with rfl | rfl | hm
      · exact hq1IP
      · exact hs2IP
      · exact ih1 oj hm
    · rw [List.chain'_cons]
      refine ⟨textStep_delIf (dels.headD false) id s, ?_⟩
      rw [List.chain'_cons]
      exact ⟨hchain12, ih4⟩
    · rw [List.getLastD_cons, List.getLastD_cons]
      exact ih5
  | case2 d dels s hd =>
    intro hIP hLe
    rw [simLoop.eq_def, if_neg hd]
    refine ⟨by simp, hIP, fun j hj => (hLe j hj).2, ?_, rfl⟩
    simp

theorem statusSnaps_append (l1 l2 : List (Option Job)) :
    statusSnaps (l1 ++ l2) = statusSnaps l1 ++ statusSnaps l2 := by
  simp [statusSnaps]

theorem statusSnaps_cons_none (l : List (Option Job)) :
    statusSnaps (none :: l) = statusSnaps l := by
  simp [statusSnaps]

theorem statusSnaps_cons_some (j : Job) (l : List (Option Job)) :
    statusSnaps (some j :: l) = j.status :: statusSnaps l := by
  simp [statusSnaps]

theorem statusSnaps_all_in_progress (l : List (Option Job)) (h : ∀ oj ∈ l, IPre oj) :
    ∀ x ∈ statusSnaps l, x = Status.in_progress := by
  intro x hx
  rw [statusSnaps, List.mem_filterMap] at hx
  obtain ⟨oj, hm, he⟩ := hx
  cases oj with
  | none => cases he
  | some j =>
    simp only [Option.map_some'] at he
    cases he
    exact h (some j) hm j rfl

/-- The catch phase against a store whose record (if any) is in progress:
the observable statuses it adds are nothing (record gone) or exactly
`in_progress, failed`, and its snapshots chain from the entry record with
the text untouched. -/
theorem catchPhase_master (id : String) (msg : String) (b : Bool) (s : Store)
    (hIP : IPre (jget s id)) :
    (statusSnaps (catchPhase id msg b s).2 = [] ∨
     statusSnaps (catchPhase id msg b s).2 = [Status.in_progress, Status.failed]) ∧
    List.Chain' textStep (jget s id :: (catchPhase id msg b s).2) := by
  have hIPB : IPre (jget (delIf b id s) id) := IPre_delIf b id s hIP
  cases hg : jget (delIf b id s) id with
  | none =>
    have hC : jget (failureWrite (delIf b id s) id msg) id = none := by
      rw [jget_failureWrite_self, hg]
      rfl
    have h2 : (catchPhase id msg b s).2 = [none, none] := by
      simp only [catchPhase]
      rw [hg, hC]
    constructor
    · left
      rw [h2]
      rfl
    · rw [h2, List.chain'_cons]
      have hR1 : textStep (jget s id) none := textStep_none_right _
      exact ⟨hR1, List.chain'_pair.mpr trivial⟩
  | some j =>
    have hC : jget (failureWrite (delIf b id s) id msg) id =
        some { j with status := Status.failed,
                      error := some (if msg = "" then "Stream failed" else msg) } := by
      rw [jget_failureWrite_self, hg]
      rfl
    obtain ⟨jf, hjf, hjfs, hjft⟩ :
        ∃ jf, jget (failureWrite (delIf b id s) id msg) id = some jf ∧
          jf.status = Status.failed ∧ jf.text = j.text :=
      ⟨_, hC, rfl, rfl⟩
    have h2 : (catchPhase id msg b s).2 = [some j, some jf] := by
      simp only [catchPhase]
      rw [hg, hjf]
    have hR1 : textStep (jget s id) (some j) := by
      rw [← hg]
      exact textStep_delIf b id s
    constructor
    · right
      rw [h2, statusSnaps_cons_some, statusSnaps_cons_some, hIPB j hg, hjfs]
      rfl
    · rw [h2, List.chain'_cons]
      refine ⟨hR1, List.chain'_pair.mpr ?_⟩
      show j.text.length ≤ jf.text.length
      rw [hjft]

/-- The chunked-delivery fallback against a store whose record (if any) is
in progress with an empty buffer. -/
theorem simulate_master (id : String) (t : String) (dels : List Bool) (s : Store)
    (hIP : IPre (jget s id))
    (hLe : ∀ j, jget s id = some j → j.text.length = 0) :
    (∀ oj ∈ (simulateChunkedDelivery id t dels s).2, IPre oj) ∧
    IPre (jget (simulateChunkedDelivery id t dels s).1 id) ∧
    (∀ j, jget (simulateChunkedDelivery id t dels s).1 id = some j →
      j.text.length ≤ t.length) ∧
    List.Chain' textStep (jget s id :: (simulateChunkedDelivery id t dels s).2) ∧
    (simulateChunkedDelivery id t dels s).2.getLastD (jget s id) =
      jget (simulateChunkedDelivery id t dels s).1 id := by
  rcases Option.eq_none_or_eq_some (jget s id) with hg | ⟨j0, hg⟩
  · have hs : simulateChunkedDelivery id t dels s = (s, []) := by
      simp only [simulateChunkedDelivery, hg]
    rw [hs]
    refine ⟨by simp, ?_, ?_, by simp, by rfl⟩
    · rw [hg]
      exact IPre_none
    · intro j hj
      rw [hg] at hj
      cases hj
  · have hs : simulateChunkedDelivery id t dels s = simLoop id t 0 dels s := by
      simp only [simulateChunkedDelivery, hg]
    rw [hs]
    exact simLoop_master id t 0 dels s hIP
      (fun j hj => by
        have h0 := hLe j hj
        exact ⟨by omega, by omega⟩)

/-- The delivery phase: snapshots all in-progress-or-absent, the result
record never exceeds the buffer, and the snapshots chain from the record
after the pre-phase deletion. -/
theorem deliverPhase_master (id : String) (sch : Sched) (st : RunSt)
    (hIP : IPre (jget st.store id)) (hLe : RecLe st id)
    (hrd : st.receivedDeltas = false →
      ∀ j, jget st.store id = some j → j.text.length = 0) :
    (∀ oj ∈ (deliverPhase id sch st).2, IPre oj) ∧
    IPre (jget (deliverPhase id sch st).1 id) ∧
    (∀ j, jget (deliverPhase id sch st).1 id = some j →
      j.text.length ≤ st.fullText.length) ∧
    List.Chain' textStep
      (jget (delIf sch.delBeforeSim id st.store) id :: (deliverPhase id sch st).2) ∧
    (deliverPhase id sch st).2.getLastD (jget (delIf sch.delBeforeSim id st.store) id) =
      jget (deliverPhase id sch st).1 id := by
  have hIPB : IPre (jget (delIf sch.delBeforeSim id st.store) id) :=
    IPre_delIf _ id _ hIP
  have hLeB : ∀ j, jget (delIf sch.delBeforeSim id st.store) id = some j →
      j.text.length ≤ st.fullText.length := by
    intro j hj
    rcases jget_delIf_cases sch.delBeforeSim id st.store with hcc | hcc
    · rw [hcc] at hj
      cases hj
    · rw [hcc] at hj
      exact hLe j hj
  by_cases hc : st.receivedDeltas = false ∧ st.fullText ≠ ""
  · have hd : deliverPhase id sch st =
        simulateChunkedDelivery id st.fullText sch.simDels
          (delIf sch.delBeforeSim id st.store) := by
      simp only [deliverPhase, if_pos hc]
    rw [hd]
    apply simulate_master
    · exact hIPB
    · intro j hj
      rcases jget_delIf_cases sch.delBeforeSim id st.store with hcc | hcc
      · rw [hcc] at hj
        cases hj
      · rw [hcc] at hj
        exact hrd hc.1 j hj
  · have hd : deliverPhase id sch st =
        (jupdateText (delIf sch.delBeforeSim id st.store) id st.fullText,
         [jget (jupdateText (delIf sch.delBeforeSim id st.store) id st.fullText) id]) := by
      simp only [deliverPhase, if_neg hc]
    rw [hd]
    refine ⟨?_, ?_, ?_, ?_, by rfl⟩
    · intro oj hm
      simp only [List.mem_singleton] at hm
      subst hm
      exact IPre_jupdateText _ id _ hIPB
    · exact IPre_jupdateText _ id _ hIPB
    · intro j hj
      rw [jget_jupdateText_self] at hj
      cases hg : jget (delIf sch.delBeforeSim id st.store) id with
      | none => rw [hg] at hj; cases hj
      | some j' =>
        rw [hg] at hj
        simp only [Option.map_some'] at hj
        cases hj
        exact le_rfl
    · rw [List.chain'_pair, jget_jupdateText_self]
      cases hg : jget (delIf sch.delBeforeSim id st.store) id with
      | none => exact trivial
      | some j' =>
        simp only [Option.map_some']
        show j'.text.length ≤ st.fullText.length
        exact hLeB j' hg

/-- After the event loop: the statuses the tail phases add are a run of
`in_progress` followed by at most one terminal write, and the snapshots
chain from the loop's final record. -/
theorem afterLoop_master (id : String) (sch : Sched) (st : RunSt)
    (hIP : IPre (jget st.store id)) (hLe : RecLe st id)
    (hrd : st.receivedDeltas = false →
      ∀ j, jget st.store id = some j → j.text.length = 0) :
    (∃ M T, statusSnaps (afterLoop id sch st).2 = M ++ T ∧
      (∀ x ∈ M, x = Status.in_progress) ∧
      (T = [] ∨ T = [Status.completed] ∨ T = [Status.failed])) ∧
    List.Chain' textStep (jget st.store id :: (afterLoop id sch st).2) := by
  cases hthr : sch.thrown with
  | some msg =>
    have ha : afterLoop id sch st = catchPhase id msg sch.delBeforeCatch st.store := by
      simp only [afterLoop, hthr]
    rw [ha]
    obtain ⟨hstat, hchain⟩ := catchPhase_master id msg sch.delBeforeCatch st.store hIP
    refine ⟨?_, hchain⟩
    rcases hstat with h | h
    · exact ⟨[], [], by rw [h]; rfl, by simp, Or.inl rfl⟩
    · refine ⟨[Status.in_progress], [Status.failed], by rw [h]; rfl, ?_, Or.inr (Or.inr rfl)⟩
      intro x hx
      simp only [List.mem_singleton] at hx
      exact hx
  | none =>
    obtain ⟨D1, D2, D3, D4, D5⟩ := deliverPhase_master id sch st hIP hLe hrd
    have hIPE : IPre (jget (delIf sch.delBeforeFinal id (deliverPhase id sch st).1) id) :=
      IPre_delIf _ id _ D2
    have hLeE : ∀ j, jget (delIf sch.delBeforeFinal id (deliverPhase id sch st).1) id =
        some j → j.text.length ≤ st.fullText.length := by
      intro j hj
      rcases jget_delIf_cases sch.delBeforeFinal id (deliverPhase id sch st).1 with hcc | hcc
      · rw [hcc] at hj
        cases hj
      · rw [hcc] at hj
        exact D3 j hj
    have ha2 : (afterLoop id sch st).2 =
        jget (delIf sch.delBeforeSim id st.store) id ::
          ((deliverPhase id sch st).2 ++
           [jget (delIf sch.delBeforeFinal id (deliverPhase id sch st).1) id,
            jget (completionWrite (delIf sch.delBeforeFinal id (deliverPhase id sch st).1)
              id st.fullText st.totalTokens) id]) := by
      simp only [afterLoop, hthr, finishPhase]
    rw [ha2]
    constructor
    · -- the statuses
      have hsplit : statusSnaps
          (jget (delIf sch.delBeforeSim id st.store) id ::
            ((deliverPhase id sch st).2 ++
             [jget (delIf sch.delBeforeFinal id (deliverPhase id sch st).1) id,
              jget (completionWrite (delIf sch.delBeforeFinal id (deliverPhase id sch st).1)
                id st.fullText st.totalTokens) id])) =
          (statusSnaps [jget (delIf sch.delBeforeSim id st.store) id] ++
           (statusSnaps (deliverPhase id sch st).2 ++
            statusSnaps [jget (delIf sch.delBeforeFinal id (deliverPhase id sch st).1) id])) ++
          statusSnaps [jget (completionWrite
            (delIf sch.delBeforeFinal id (deliverPhase id sch st).1)
            id st.fullText st.totalTokens) id] := by
        rw [← statusSnaps_append, ← statusSnaps_append, ← statusSnaps_append]
        congr 1
        simp
      rw [hsplit]
      refine ⟨_, _, rfl, ?_, ?_⟩
      · -- every element of M is in_progress
        intro x hx
        simp only [List.mem_append] at hx
        rcases hx with hx | (hx | hx)
        · exact statusSnaps_all_in_progress _
            (by intro oj hm; simp only [List.mem_singleton] at hm; subst hm;
                exact IPre_delIf _ id _ hIP) x hx
        · exact statusSnaps_all_in_progress _ D1 x hx
        · exact statusSnaps_all_in_progress _
            (by intro oj hm; simp only [List.mem_singleton] at hm; subst hm; exact hIPE) x hx
      · -- the terminal part
        cases hg : jget (delIf sch.delBeforeFinal id (deliverPhase id sch st).1) id with
        | none =>
          left
          have : jget (completionWrite (delIf sch.delBeforeFinal id (deliverPhase id sch st).1)
              id st.fullText st.totalTokens) id = none := by
            rw [jget_completionWrite_self, hg]
            rfl
          rw [this]
          rfl
        | some j =>
          right
          left
          have : jget (completionWrite (delIf sch.delBeforeFinal id (deliverPhase id sch st).1)
              id st.fullText st.totalTokens) id =
              some { j with status := Status.completed, text := st.fullText,
                            tokensUsed := st.totalTokens } := by
            rw [jget_completionWrite_self, hg]
            rfl
          rw [this, statusSnaps_cons_some]
          rfl
    · -- the chain
      rw [List.chain'_cons]
      refine ⟨textStep_delIf _ id _, ?_⟩
      apply chain'_of_cons_append D4
      rw [D5, List.chain'_cons]
      constructor
      · rcases jget_delIf_cases sch.delBeforeFinal id (deliverPhase id sch st).1 with hcc | hcc
        · rw [hcc]
          exact textStep_none_right _
        · rw [hcc]
          exact textStep_refl _
      · rw [List.chain'_pair, jget_completionWrite_self]
        cases hg : jget (delIf sch.delBeforeFinal id (deliverPhase id sch st).1) id with
        | none => exact trivial
        | some j =>
          simp only [Option.map_some']
          show j.text.length ≤ st.fullText.length
          exact hLeE j hg

theorem collapseRuns_cons_cons_same (a : Status) (l : List Status) :
    collapseRuns (a :: a :: l) = collapseRuns (a :: l) := by
  simp [collapseRuns]

theorem collapseRuns_cons_cons_ne {a b : Status} (h : a ≠ b) (l : List Status) :
    collapseRuns (a :: b :: l) = a :: collapseRuns (b :: l) := by
  simp [collapseRuns, h]

theorem collapseRuns_cons_replicate (a : Status) (k : Nat) (l : List Status) :
    collapseRuns (a :: (List.replicate k a ++ l)) = collapseRuns (a :: l) := by
  induction k with
  | zero => simp
  | succ n ih =>
    rw [List.replicate_succ, List.cons_append, collapseRuns_cons_cons_same]
    exact ih

/-- The in-progress record the `in_progress` transition writes over the
freshly created record. -/
def jobIP (now : Nat) : Job :=
  { initialJob now with status := Status.in_progress }

/-- The loop-entry state: empty accumulators over the store holding the
in-progress record. -/
def entrySt (id : String) (now : Nat) (s : Store) : RunSt :=
  { fullText := "", totalTokens := 0, receivedDeltas := false,
    store := jset (jset s id (initialJob now)) id (jobIP now) }

/-- The whole lifecycle trace: its status sequence is either the lone
`queued` of a record deleted before the task's first write, or
`queued, queued, in_progress` followed by a run of `in_progress` and at most
one terminal status; and its record snapshots form a `textStep` chain. -/
theorem createAndRun_master (id : String) (now : Nat) (sch : Sched) (s : Store) :
    (statusSnaps (createAndRun id now sch s).2 = [Status.queued] ∨
     ∃ M T, statusSnaps (createAndRun id now sch s).2 =
         Status.queued :: Status.queued :: Status.in_progress :: (M ++ T) ∧
       (∀ x ∈ M, x = Status.in_progress) ∧
       (T = [] ∨ T = [Status.completed] ∨ T = [Status.failed])) ∧
    List.Chain' textStep (createAndRun id now sch s).2 := by
  have h0 : jget (jset s id (initialJob now)) id = some (initialJob now) :=
    jget_jset_self s id _
  have hc2 : (createAndRun id now sch s).2 =
      jget (jset s id (initialJob now)) id ::
        (runStreamingJob id sch (jset s id (initialJob now))).2 := by
    simp only [createAndRun]
  cases hda : sch.delAtStart with
  | true =>
    have hA : delIf sch.delAtStart id (jset s id (initialJob now)) =
        jdelete (jset s id (initialJob now)) id := by
      rw [hda]
      simp [delIf]
    have hgA : jget (delIf sch.delAtStart id (jset s id (initialJob now))) id = none := by
      rw [hA]
      exact jget_jdelete_self _ id
    have hmip : markInProgress (delIf sch.delAtStart id (jset s id (initialJob now))) id =
        Except.error "TypeError: Cannot set properties of undefined" := by
      simp only [markInProgress, hgA]
    have hrun2 : (runStreamingJob id sch (jset s id (initialJob now))).2 =
        jget (delIf sch.delAtStart id (jset s id (initialJob now))) id ::
          (catchPhase id "TypeError: Cannot set properties of undefined" sch.delBeforeCatch
            (delIf sch.delAtStart id (jset s id (initialJob now)))).2 := by
      simp only [runStreamingJob, hmip]
    have hgB : jget (delIf sch.delBeforeCatch id
        (delIf sch.delAtStart id (jset s id (initialJob now)))) id = none := by
      rcases jget_delIf_cases sch.delBeforeCatch id
        (delIf sch.delAtStart id (jset s id (initialJob now))) with hcc | hcc
      · exact hcc
      · rw [hcc]
        exact hgA
    have hgC : jget (failureWrite (delIf sch.delBeforeCatch id
        (delIf sch.delAtStart id (jset s id (initialJob now)))) id
        "TypeError: Cannot set properties of undefined") id = none := by
      rw [jget_failureWrite_self, hgB]
      rfl
    have hlist : (createAndRun id now sch s).2 =
        [some (initialJob now), none, none, none] := by
      rw [hc2, hrun2]
      simp only [catchPhase]
      rw [h0, hgA, hgB, hgC]
    constructor
    · left
      rw [hlist]
      rfl
    · rw [hlist]
      rw [List.chain'_cons, List.chain'_cons, List.chain'_cons]
      exact ⟨trivial, trivial, trivial, List.chain'_singleton _⟩
  | false =>
    have hA : delIf sch.delAtStart id (jset s id (initialJob now)) =
        jset s id (initialJob now) := by
      rw [hda]
      simp [delIf]
    have hmip : markInProgress (delIf sch.delAtStart id (jset s id (initialJob now))) id =
        Except.ok (jset (jset s id (initialJob now)) id (jobIP now)) := by
      rw [hA]
      simp only [markInProgress, h0, jobIP]
    have hrun2 : (runStreamingJob id sch (jset s id (initialJob now))).2 =
        jget (delIf sch.delAtStart id (jset s id (initialJob now))) id ::
          jget (entrySt id now s).store id ::
          ((runLoop id sch.evs (entrySt id now s)).2 ++
           (afterLoop id sch (runLoop id sch.evs (entrySt id now s)).1).2) := by
      simp only [runStreamingJob, hmip, entrySt]
    have hs1 : jget (entrySt id now s).store id = some (jobIP now) := by
      simp only [entrySt]
      exact jget_jset_self _ id _
    have hIP1 : IPre (jget (entrySt id now s).store id) := by
      intro j hj
      rw [hs1] at hj
      cases hj
      rfl
    have hLe1 : RecLe (entrySt id now s) id := by
      intro j hj
      rw [hs1] at hj
      cases hj
      exact le_rfl
    obtain ⟨L1, L2, L3, L4, L5, L6, L7⟩ :=
      runLoop_master id sch.evs (entrySt id now s) hIP1 hLe1
    have hrd : (runLoop id sch.evs (entrySt id now s)).1.receivedDeltas = false →
        ∀ j, jget (runLoop id sch.evs (entrySt id now s)).1.store id = some j →
          j.text.length = 0 := by
      intro hrdf j hj
      obtain ⟨-, hone⟩ := L5 hrdf
      rcases hone with hn | he
      · rw [hn] at hj
        cases hj
      · rw [he, hs1] at hj
        cases hj
        rfl
    obtain ⟨⟨M, T, hMT, hM, hT⟩, Achain⟩ :=
      afterLoop_master id sch (runLoop id sch.evs (entrySt id now s)).1 L2 L3 hrd
    constructor
    · right
      refine ⟨statusSnaps (runLoop id sch.evs (entrySt id now s)).2 ++ M, T, ?_, ?_, hT⟩
      · rw [hc2, hrun2, hA, h0]
        rw [statusSnaps_cons_some, statusSnaps_cons_some]
        rw [hs1, statusSnaps_cons_some]
        rw [statusSnaps_append, hMT]
        simp [initialJob, jobIP, List.append_assoc]
      · intro x hx
        rw [List.mem_append] at hx
        rcases hx with hx | hx
        · exact statusSnaps_all_in_progress _ L1 x hx
        · exact hM x hx
    · rw [hc2, hrun2, hA]
      rw [List.chain'_cons]
      constructor
      · rw [h0]
        exact textStep_refl _
      · rw [List.chain'_cons]
        constructor
        · rw [h0, hs1]
          exact le_rfl
        · apply chain'_of_cons_append L6
          rw [L7]
          exact Achain

theorem all_eq_replicate {α : Type} (a : α) (l : List α) (h : ∀ x ∈ l, x = a) :
    l = List.replicate l.length a := by
  induction l with
  | nil => rfl
  | cons x rest ih =>
    rw [List.length_cons, List.replicate_succ, h x (by simp)]
    exact congrArg (List.cons a) (ih (fun y hy => h y (by simp [hy])))

/-- C3. Over every deletion schedule, event sequence and failure injection,
the sequence of status values the job record takes over its observable
lifetime (consecutive repeats collapsed) is a subsequence of
`queued, in_progress, completed` or of `queued, in_progress, failed`: the
only status writes are the single `in_progress` transition at task start and
the single terminal write (completion, lines 252-258, or failure, lines
266-271), each of which ends the run, so no other transition occurs and no
terminal state is left or written twice. -/
theorem c3_status_machine (id : String) (now : Nat) (sch : Sched) (s : Store) :
    isSub (collapseRuns (statusSnaps (createAndRun id now sch s).2))
        [Status.queued, Status.in_progress, Status.completed] = true ∨
    isSub (collapseRuns (statusSnaps (createAndRun id now sch s).2))
        [Status.queued, Status.in_progress, Status.failed] = true := by
  obtain ⟨hshape, -⟩ := createAndRun_master id now sch s
  rcases hshape with h | ⟨M, T, hMT, hM, hT⟩
  · rw [h]
    left
    decide
  · rw [hMT, all_eq_replicate Status.in_progress M hM]
    rw [collapseRuns_cons_cons_same]
    rw [collapseRuns_cons_cons_ne (by decide)]
    rw [collapseRuns_cons_replicate]
    rcases hT with rfl | rfl | rfl
    · left
      decide
    · left
      decide
    · right
      decide

/-- C4. Over every deletion schedule, event sequence and failure injection,
every pair of consecutive record snapshots satisfies `textStep`: while the
record exists its text length never decreases (each write stores either the
appended buffer, a strictly longer replacement revision, or a longer chunk
prefix, and the failure write leaves the text untouched), and a deleted
record never reappears. -/
theorem c4_text_monotone (id : String) (now : Nat) (sch : Sched) (s : Store) :
    List.Chain' textStep (createAndRun id now sch s).2 :=
  (createAndRun_master id now sch s).2

end StratEko
